import Mathlib

/-
Verification of src/src/make_call.c (package rlang / lazyeval native helper).

The C file defines two functions over the R host object model:

  SEXP lazy_to_promise(SEXP x)   -- mkPROMISE(VECTOR_ELT(x,0), VECTOR_ELT(x,1))
  SEXP make_call_(SEXP fun, SEXP dots)

We embed the fragment of the R object model the routine touches: a SEXP
value tree with the node kinds the code can meet, the type codes returned
by TYPEOF, and the handful of host accessors the routine calls
(length, inherits, GET_NAMES, VECTOR_ELT, STRING_ELT, Rf_install,
Rf_mkPROMISE, CONS, LCONS).  Fallible host calls are embedded in
Except String: the accessors carry the checked semantics of the R API
(R >= 3.5, where VECTOR_ELT and STRING_ELT are functions that reject a
wrong argument type, and Rf_install rejects the empty string with
"attempt to use zero-length variable name").  Attributes are modelled on
the generic-vector node only, which carries the two attributes the code
consults on dots: the class vector and the names attribute.
-/

namespace RMakeCall

/-- The R type codes distinguished by the routine, plus representatives of
the remaining types so that ill-typed inputs are expressible. -/
inductive SEXPTYPE where
  | NILSXP
  | SYMSXP
  | LISTSXP
  | ENVSXP
  | PROMSXP
  | LANGSXP
  | STRSXP
  | VECSXP
  | INTSXP
deriving DecidableEq, Repr

/-- The SEXP value tree.  `vec` is a VECSXP together with the two
attributes make_call_ reads from it: the class attribute (a list of class
name strings, empty when absent) and the names attribute (`none` when
absent).  `listCell` is a LISTSXP cons cell with car, cdr and tag;
`langCell` is a LANGSXP cons cell as produced by LCONS (its tag is nil and
never set by this code).  `promiseV` is an unevaluated PROMSXP holding the
expression and the environment recorded by Rf_mkPROMISE. -/
inductive SEXP where
  | nilValue : SEXP
  | symbol (nm : String) : SEXP
  | listCell (car cdr tagv : SEXP) : SEXP
  | langCell (car cdr : SEXP) : SEXP
  | envRec (id : Nat) : SEXP
  | promiseV (pexpr penv : SEXP) : SEXP
  | strVec (elems : List String) : SEXP
  | vec (elems : List SEXP) (cls : List String) (nms : Option (List String)) : SEXP
  | intVec (elems : List Int) : SEXP

/-- Result of a host call that can longjmp through Rf_error: either an
error message or a value. -/
abbrev RResult := Except String SEXP

/-- TYPEOF from Rinternals. -/
def TYPEOF : SEXP → SEXPTYPE
  | .nilValue => .NILSXP
  | .symbol _ => .SYMSXP
  | .listCell _ _ _ => .LISTSXP
  | .langCell _ _ => .LANGSXP
  | .envRec _ => .ENVSXP
  | .promiseV _ _ => .PROMSXP
  | .strVec _ => .STRSXP
  | .vec _ _ _ => .VECSXP
  | .intVec _ => .INTSXP

/-- Rf_length on the node kinds of the model.  Only its value on VECSXP
matters to make_call_ (dots has been checked to be a VECSXP before
length(dots) is taken). -/
def Rf_length : SEXP → Nat
  | .nilValue => 0
  | .listCell _ cdr _ => 1 + Rf_length cdr
  | .langCell _ cdr => 1 + Rf_length cdr
  | .strVec l => l.length
  | .vec l _ _ => l.length
  | .intVec l => l.length
  | _ => 1

/-- The class string the third validation check looks for. -/
def lazyDotsClass : String := "lazy_dots"

/-- Rf_inherits: does the class attribute of the object contain the given
class name?  In the model only VECSXP nodes carry a class attribute (the
code only calls inherits on dots after establishing TYPEOF(dots) ==
VECSXP). -/
def inheritsR (x : SEXP) (cls : String) : Bool :=
  match x with
  | .vec _ c _ => c.contains cls
  | _ => false

/-- GET_NAMES: the names attribute as a SEXP, R_NilValue when absent. -/
def GET_NAMES : SEXP → SEXP
  | .vec _ _ (some ns) => .strVec ns
  | _ => .nilValue

/-- VECTOR_ELT with the checked semantics of the R API: the argument must
be a generic vector and the index must be in range. -/
def VECTOR_ELT (x : SEXP) (i : Nat) : RResult :=
  match x with
  | .vec l _ _ =>
      match l.get? i with
      | some v => .ok v
      | none => .error "VECTOR_ELT subscript out of bounds"
  | _ => .error "VECTOR_ELT can only be applied to a list"

/-- STRING_ELT with the checked semantics of the R API: the argument must
be a character vector and the index in range; the CHARSXP content is
returned as a String. -/
def STRING_ELT (x : SEXP) (i : Nat) : Except String String :=
  match x with
  | .strVec l =>
      match l.get? i with
      | some s => .ok s
      | none => .error "STRING_ELT subscript out of bounds"
  | _ => .error "STRING_ELT can only be applied to a character vector"

/-- Rf_install: interning a name yields the symbol with that printname;
installing the empty string is an error in R ("attempt to use zero-length
variable name"). -/
def Rf_install (s : String) : RResult :=
  if s = "" then .error "attempt to use zero-length variable name"
  else .ok (.symbol s)

/-- Rf_mkPROMISE(expr, env): a fresh unevaluated promise recording the
expression and the environment. -/
def Rf_mkPROMISE (pexpr penv : SEXP) : SEXP :=
  .promiseV pexpr penv

/-- lazy_to_promise from make_call.c lines 8-11:
mkPROMISE(VECTOR_ELT(x,0), VECTOR_ELT(x,1)). -/
def lazy_to_promise (x : SEXP) : RResult :=
  match VECTOR_ELT x 0 with
  | .error m => .error m
  | .ok e =>
      match VECTOR_ELT x 1 with
      | .error m => .error m
      | .ok v => .ok (Rf_mkPROMISE e v)

/-- The construction loop of make_call_ (lines 32-38), iterating the C
index i from n-1 down to 0.  The first argument of the recursion is the
count of indices still to process (the C loop body for index i runs when
the count is i+1); args is the pairlist accumulated so far.  One
iteration: dot = VECTOR_ELT(dots,i); prom = lazy_to_promise(dot); args =
CONS(prom, args); SET_TAG(args, install(CHAR(STRING_ELT(names,i)))). -/
def makeArgsLoop (dots names : SEXP) : Nat → SEXP → RResult
  | 0, args => .ok args
  | i + 1, args =>
      match VECTOR_ELT dots i with
      | .error m => .error m
      | .ok dot =>
          match lazy_to_promise dot with
          | .error m => .error m
          | .ok prom =>
              match STRING_ELT names i with
              | .error m => .error m
              | .ok nm =>
                  match Rf_install nm with
                  | .error m => .error m
                  | .ok tagv => makeArgsLoop dots names i (.listCell prom args tagv)

/-- make_call_ from make_call.c lines 13-41. -/
def make_call_ (fn dots : SEXP) : RResult :=
  if TYPEOF fn ≠ SEXPTYPE.SYMSXP ∧ TYPEOF fn ≠ SEXPTYPE.LANGSXP then
    .error "fun must be a call or a symbol"
  else if TYPEOF dots ≠ SEXPTYPE.VECSXP then
    .error "dots must be a list"
  else if inheritsR dots lazyDotsClass = false then
    .error "dots must be of class lazy_dots"
  else
    let n := Rf_length dots
    if n = 0 then .ok (.langCell fn .nilValue)
    else
      let names := GET_NAMES dots
      match makeArgsLoop dots names n .nilValue with
      | .error m => .error m
      | .ok args => .ok (.langCell fn args)

/-! ### Specification-side helpers

Total projections and an independently defined (structural, front-to-back)
construction of the argument pairlist, to be compared with the output of
the source loop, which accumulates back-to-front. -/

/-- Total projection: element i of a generic vector, nil as default. -/
def velt (x : SEXP) (i : Nat) : SEXP :=
  match x with
  | .vec l _ _ => l.getD i .nilValue
  | _ => .nilValue

/-- A dots element that lazy_to_promise accepts without fault: a generic
vector with at least the two slots (expression, environment). -/
def isLazyPair (x : SEXP) : Bool :=
  match x with
  | .vec l _ _ => 2 ≤ l.length
  | _ => false

/-- The (promise, tag) slot that the loop body builds for one dots element
and its name. -/
def slotOf (d : SEXP) (nm : String) : SEXP × SEXP :=
  (Rf_mkPROMISE (velt d 0) (velt d 1), SEXP.symbol nm)

/-- Attach a list of (car, tag) slots in front of a pairlist tail,
front-to-back. -/
def specAttach : List (SEXP × SEXP) → SEXP → SEXP
  | [], tail => tail
  | s :: rest, tail => .listCell s.1 (specAttach rest tail) s.2

/-- The slots make_call_ is meant to produce for given elements and
names. -/
def argSlots (elts : List SEXP) (ns : List String) : List (SEXP × SEXP) :=
  List.zipWith slotOf elts ns

/-- The cars of a pairlist, in list order. -/
def pairlistCars : SEXP → List SEXP
  | .listCell a d _ => a :: pairlistCars d
  | _ => []

/-- The tags of a pairlist, in list order. -/
def pairlistTags : SEXP → List SEXP
  | .listCell _ d t => t :: pairlistTags d
  | _ => []

/-- Did the host call end in an error (an Rf_error longjmp)? -/
def isErr (r : RResult) : Bool :=
  match r with
  | .error _ => true
  | .ok _ => false

/-! ### Instrumented semantics

The same computation, threading an allocation counter for the cons cells
the loop allocates and an event trace.  The trace records, in program
order: the read of the names attribute, the visit of loop index i, each
promise construction, each cons-cell allocation (with its fresh id) and
each SET_TAG mutation (with the id of the cell written).  The result
component coincides with make_call_ (proved below); the trace underlies
the claims about visit order, about reads and allocations, and about
mutation targets. -/

/-- Events of one run of make_call_. -/
inductive Ev where
  | readNames : Ev
  | visit (i : Nat) : Ev
  | mkProm (pexpr penv : SEXP) : Ev
  | allocCons (id : Nat) : Ev
  | setTagEv (id : Nat) (tagv : SEXP) : Ev

/-- The construction loop, instrumented.  The counter c is the id supply
for cons cells; evs accumulates events in chronological order.  The order
of effects inside one iteration follows the C statement order: the
element read (visit), the promise construction, the CONS allocation, then
the SET_TAG write into the freshly allocated cell (the name lookup
STRING_ELT/install happens between the allocation and the write, as the
arguments of SET_TAG are evaluated after CONS). -/
def makeArgsLoopI (dots names : SEXP) :
    Nat → SEXP → Nat → List Ev → RResult × Nat × List Ev
  | 0, args, c, evs => (.ok args, c, evs)
  | i + 1, args, c, evs =>
      let evs1 := evs ++ [Ev.visit i]
      match VECTOR_ELT dots i with
      | .error m => (.error m, c, evs1)
      | .ok dot =>
          match VECTOR_ELT dot 0 with
          | .error m => (.error m, c, evs1)
          | .ok e =>
              match VECTOR_ELT dot 1 with
              | .error m => (.error m, c, evs1)
              | .ok v =>
                  let prom := Rf_mkPROMISE e v
                  let evs2 := evs1 ++ [Ev.mkProm e v, Ev.allocCons c]
                  match STRING_ELT names i with
                  | .error m => (.error m, c + 1, evs2)
                  | .ok nm =>
                      match Rf_install nm with
                      | .error m => (.error m, c + 1, evs2)
                      | .ok tagv =>
                          makeArgsLoopI dots names i (.listCell prom args tagv)
                            (c + 1) (evs2 ++ [Ev.setTagEv c tagv])

/-- make_call_, instrumented with the allocation counter and the event
trace. -/
def make_call_I (fn dots : SEXP) (c : Nat) : RResult × Nat × List Ev :=
  if TYPEOF fn ≠ SEXPTYPE.SYMSXP ∧ TYPEOF fn ≠ SEXPTYPE.LANGSXP then
    (.error "fun must be a call or a symbol", c, [])
  else if TYPEOF dots ≠ SEXPTYPE.VECSXP then
    (.error "dots must be a list", c, [])
  else if inheritsR dots lazyDotsClass = false then
    (.error "dots must be of class lazy_dots", c, [])
  else
    let n := Rf_length dots
    if n = 0 then (.ok (.langCell fn .nilValue), c, [])
    else
      match makeArgsLoopI dots (GET_NAMES dots) n .nilValue c [Ev.readNames] with
      | (.error m, c2, evs) => (.error m, c2, evs)
      | (.ok args, c2, evs) => (.ok (.langCell fn args), c2, evs)

/-- The loop indices visited during a run, in order. -/
def visitsOf (evs : List Ev) : List Nat :=
  evs.filterMap (fun e =>
    match e with
    | .visit i => some i
    | _ => none)

/-! ### Basic lemmas about the spec-side constructions -/

lemma specAttach_append (l1 l2 : List (SEXP × SEXP)) (tail : SEXP) :
    specAttach (l1 ++ l2) tail = specAttach l1 (specAttach l2 tail) := by
  induction l1 with
  | nil => rfl
  | cons s rest ih => simp [specAttach, ih]

lemma pairlistCars_specAttach (l : List (SEXP × SEXP)) :
    pairlistCars (specAttach l .nilValue) = l.map Prod.fst := by
  induction l with
  | nil => rfl
  | cons s rest ih => simp [specAttach, pairlistCars, ih]

lemma pairlistTags_specAttach (l : List (SEXP × SEXP)) :
    pairlistTags (specAttach l .nilValue) = l.map Prod.snd := by
  induction l with
  | nil => rfl
  | cons s rest ih => simp [specAttach, pairlistTags, ih]

lemma argSlots_map_fst :
    ∀ (elts : List SEXP) (ns : List String), elts.length = ns.length →
      (argSlots elts ns).map Prod.fst
        = elts.map (fun d => Rf_mkPROMISE (velt d 0) (velt d 1)) := by
  intro elts
  induction elts with
  | nil => intro ns _; rfl
  | cons d rest ih =>
      intro ns h
      cases ns with
      | nil => simp at h
      | cons nm ns2 =>
          simp only [argSlots, List.zipWith, List.map, slotOf]
          refine congrArg _ ?_
          exact ih ns2 (by simpa using h)

lemma argSlots_map_snd :
    ∀ (elts : List SEXP) (ns : List String), elts.length = ns.length →
      (argSlots elts ns).map Prod.snd = ns.map SEXP.symbol := by
  intro elts
  induction elts with
  | nil =>
      intro ns h
      cases ns with
      | nil => rfl
      | cons nm ns2 => simp at h
  | cons d rest ih =>
      intro ns h
      cases ns with
      | nil => simp at h
      | cons nm ns2 =>
          simp only [argSlots, List.zipWith, List.map, slotOf]
          refine congrArg _ ?_
          exact ih ns2 (by simpa using h)

/-! ### Correctness of the construction loop on well-formed input -/

lemma makeArgsLoop_ok (elts : List SEXP) (cls : List String) (ns : List String)
    (hpair : ∀ d ∈ elts, isLazyPair d = true) (hnm : ∀ nm ∈ ns, nm ≠ "") :
    ∀ i, i ≤ elts.length → i ≤ ns.length → ∀ acc,
      makeArgsLoop (.vec elts cls (some ns)) (.strVec ns) i acc
        = .ok (specAttach (argSlots (elts.take i) (ns.take i)) acc) := by
  intro i
  induction i with
  | zero => intro _ _ acc; rfl
  | succ i ih =>
      intro h1 h2 acc
      have hi1 : i < elts.length := Nat.lt_of_succ_le h1
      have hi2 : i < ns.length := Nat.lt_of_succ_le h2
      have hp : isLazyPair elts[i] = true := hpair _ (List.getElem_mem hi1)
      have hn : ns[i] ≠ "" := hnm _ (List.getElem_mem hi2)
      obtain ⟨x, y, rest, a, b, hd⟩ :
          ∃ x y rest a b, elts[i] = SEXP.vec (x :: y :: rest) a b := by
        rcases he : elts[i] with _ | _ | _ | _ | _ | _ | _ | ⟨l, a, b⟩ | _ <;>
          rw [he] at hp <;> simp [isLazyPair] at hp
        rcases l with _ | ⟨x, _ | ⟨y, rest⟩⟩
        · simp at hp
        · simp at hp
        · exact ⟨x, y, rest, a, b, rfl⟩
      have hvelt : VECTOR_ELT (SEXP.vec elts cls (some ns)) i
          = .ok (SEXP.vec (x :: y :: rest) a b) := by
        simp [VECTOR_ELT, List.getElem?_eq_getElem hi1, hd]
      have hlazy : lazy_to_promise (SEXP.vec (x :: y :: rest) a b)
          = .ok (SEXP.promiseV x y) := rfl
      have hstr : STRING_ELT (SEXP.strVec ns) i = .ok ns[i] := by
        simp [STRING_ELT, List.getElem?_eq_getElem hi2]
      have hslots : argSlots (elts.take (i + 1)) (ns.take (i + 1))
          = argSlots (elts.take i) (ns.take i) ++ [slotOf elts[i] ns[i]] := by
        rw [argSlots, List.take_succ, List.take_succ,
          List.getElem?_eq_getElem hi1, List.getElem?_eq_getElem hi2]
        rw [List.zipWith_append _ _ _ _ _
          (by simp [List.length_take, Nat.min_eq_left (Nat.le_of_lt hi1),
                Nat.min_eq_left (Nat.le_of_lt hi2)])]
        rfl
      rw [makeArgsLoop]
      simp only [hvelt, hlazy, hstr, Rf_install, if_neg hn]
      rw [ih (Nat.le_of_lt hi1) (Nat.le_of_lt hi2)]
      rw [hslots, specAttach_append]
      have hslot1 : slotOf elts[i] ns[i]
          = (SEXP.promiseV x y, SEXP.symbol ns[i]) := by
        rw [hd]; rfl
      rw [hslot1]
      rfl

/-- make_call_ on a fully well-formed input: fun a symbol or a call, dots
a generic vector of class lazy_dots whose elements are (expression,
environment) pairs and whose names attribute gives every element a
nonempty name.  The result is the call whose head is fun and whose
argument pairlist carries, front to back, one promise and one tag per
dots element. -/
lemma make_call_ok (fn : SEXP) (elts : List SEXP) (cls ns : List String)
    (hfn : TYPEOF fn = SEXPTYPE.SYMSXP ∨ TYPEOF fn = SEXPTYPE.LANGSXP)
    (hcls : lazyDotsClass ∈ cls)
    (hlen : elts.length = ns.length)
    (hpair : ∀ d ∈ elts, isLazyPair d = true)
    (hnm : ∀ nm ∈ ns, nm ≠ "") :
    make_call_ fn (.vec elts cls (some ns))
      = .ok (.langCell fn (specAttach (argSlots elts ns) .nilValue)) := by
  have hloop := makeArgsLoop_ok elts cls ns hpair hnm elts.length (Nat.le_refl _)
    (le_of_eq hlen) SEXP.nilValue
  rw [List.take_length] at hloop
  have hnstake : ns.take elts.length = ns := by rw [hlen, List.take_length]
  rw [hnstake] at hloop
  rw [make_call_]
  rw [if_neg (by rcases hfn with h | h <;> simp [h])]
  rw [if_neg (by simp [TYPEOF])]
  rw [if_neg (by simp [inheritsR, hcls])]
  by_cases hz : elts.length = 0
  · have he : elts = [] := List.length_eq_zero.mp hz
    subst he
    have hns0 : ns = [] := List.length_eq_zero.mp hlen.symm
    subst hns0
    rfl
  · simp only [Rf_length, hz, if_false, ite_false, GET_NAMES]
    rw [hloop]

/-! ### Concrete instances used in counterexamples and witnesses -/

/-- A symbol to stand for the function reference. -/
def fnSym : SEXP := .symbol "f"

/-- A lazily captured argument: the pair (expression x, environment 0). -/
def pairX : SEXP := .vec [.symbol "x", .envRec 0] [] none

/-- A second lazily captured argument. -/
def pairY : SEXP := .vec [.symbol "y", .envRec 1] [] none

/-- A well-formed lazy_dots with two named elements a and b. -/
def dotsNamed : SEXP := .vec [pairX, pairY] [lazyDotsClass] (some ["a", "b"])

/-- A lazy_dots with one well-formed element and no names attribute. -/
def dotsUnnamed : SEXP := .vec [pairX] [lazyDotsClass] none

/-- A lazy_dots with one well-formed element whose name entry is the
empty string (an unnamed argument in R's names convention). -/
def dotsEmptyName : SEXP := .vec [pairX] [lazyDotsClass] (some [""])

/-- A lazy_dots with no elements. -/
def dotsEmpty : SEXP := .vec [] [lazyDotsClass] none

/-! ### Claim C1 -/

/-- C1 counterexample: the claim quantifies over every lazy_dots whose
elements are (expression, environment) pairs and asserts a call is
returned, but a lazy_dots that carries no names attribute makes
make_call_ abort (STRING_ELT is applied to R_NilValue), so no call is
returned although fun is a symbol, dots is a generic list of class
lazy_dots, and its single element is a length-2 (expression, environment)
list. -/
theorem C1_counterexample :
    TYPEOF fnSym = SEXPTYPE.SYMSXP
    ∧ TYPEOF dotsUnnamed = SEXPTYPE.VECSXP
    ∧ inheritsR dotsUnnamed lazyDotsClass = true
    ∧ Rf_length dotsUnnamed = 1
    ∧ velt dotsUnnamed 0 = .vec [.symbol "x", .envRec 0] [] none
    ∧ isErr (make_call_ fnSym dotsUnnamed) = true :=
  ⟨rfl, rfl, rfl, rfl, rfl, rfl⟩

/-- C1 (amended): for every fun that is a symbol or a call expression and
every dots that is a generic list of class lazy_dots whose every element
is a length-2 list of (expression, environment) and whose names attribute
assigns every element a nonempty name, make_call_ returns a call node
whose head is exactly the given fun and whose i-th argument slot holds a
promise whose expression is the first component and whose environment is
the second component of the i-th element of dots. -/
theorem make_call_builds_promise_slots (fn : SEXP) (elts : List SEXP)
    (cls ns : List String)
    (hfn : TYPEOF fn = SEXPTYPE.SYMSXP ∨ TYPEOF fn = SEXPTYPE.LANGSXP)
    (hcls : lazyDotsClass ∈ cls)
    (hlen : elts.length = ns.length)
    (hpair : ∀ d ∈ elts, isLazyPair d = true)
    (hnm : ∀ nm ∈ ns, nm ≠ "") :
    make_call_ fn (.vec elts cls (some ns))
      = .ok (.langCell fn (specAttach (argSlots elts ns) .nilValue))
    ∧ pairlistCars (specAttach (argSlots elts ns) .nilValue)
      = elts.map (fun d => Rf_mkPROMISE (velt d 0) (velt d 1)) := by
  refine ⟨make_call_ok fn elts cls ns hfn hcls hlen hpair hnm, ?_⟩
  rw [pairlistCars_specAttach, argSlots_map_fst elts ns hlen]

/-- C1 witness: the amended theorem applied to a concrete symbol and a
concrete two-element named lazy_dots. -/
theorem make_call_builds_promise_slots_witness :
    make_call_ fnSym dotsNamed
      = .ok (.langCell fnSym
          (specAttach (argSlots [pairX, pairY] ["a", "b"]) .nilValue))
    ∧ pairlistCars (specAttach (argSlots [pairX, pairY] ["a", "b"]) .nilValue)
      = [pairX, pairY].map (fun d => Rf_mkPROMISE (velt d 0) (velt d 1)) := by
  exact make_call_builds_promise_slots fnSym [pairX, pairY] [lazyDotsClass]
    ["a", "b"] (Or.inl rfl) (by simp) rfl (by decide) (by decide)

/-! ### Claim C2 -/

/-- C2: on a well-formed input (dots of class lazy_dots whose names
attribute gives every element a nonempty name and whose elements are
(expression, environment) pairs), the argument list of the returned call
has exactly as many slots as dots has elements, the slots appear in the
order of the elements of dots, and the i-th slot is tagged with the
symbol interned from the i-th entry of the names attribute. -/
theorem make_call_preserves_names_and_order (fn : SEXP) (elts : List SEXP)
    (cls ns : List String)
    (hfn : TYPEOF fn = SEXPTYPE.SYMSXP ∨ TYPEOF fn = SEXPTYPE.LANGSXP)
    (hcls : lazyDotsClass ∈ cls)
    (hlen : elts.length = ns.length)
    (hpair : ∀ d ∈ elts, isLazyPair d = true)
    (hnm : ∀ nm ∈ ns, nm ≠ "") :
    make_call_ fn (.vec elts cls (some ns))
      = .ok (.langCell fn (specAttach (argSlots elts ns) .nilValue))
    ∧ (pairlistCars (specAttach (argSlots elts ns) .nilValue)).length
      = Rf_length (.vec elts cls (some ns))
    ∧ pairlistCars (specAttach (argSlots elts ns) .nilValue)
      = elts.map (fun d => Rf_mkPROMISE (velt d 0) (velt d 1))
    ∧ pairlistTags (specAttach (argSlots elts ns) .nilValue)
      = ns.map SEXP.symbol := by
  refine ⟨make_call_ok fn elts cls ns hfn hcls hlen hpair hnm, ?_, ?_, ?_⟩
  · rw [pairlistCars_specAttach, argSlots_map_fst elts ns hlen]
    simp [Rf_length]
  · rw [pairlistCars_specAttach, argSlots_map_fst elts ns hlen]
  · rw [pairlistTags_specAttach, argSlots_map_snd elts ns hlen]

/-- C2 witness: the theorem applied to a concrete symbol and a concrete
two-element named lazy_dots. -/
theorem make_call_preserves_names_and_order_witness :
    make_call_ fnSym dotsNamed
      = .ok (.langCell fnSym
          (specAttach (argSlots [pairX, pairY] ["a", "b"]) .nilValue))
    ∧ (pairlistCars (specAttach (argSlots [pairX, pairY] ["a", "b"]) .nilValue)).length
      = Rf_length dotsNamed
    ∧ pairlistCars (specAttach (argSlots [pairX, pairY] ["a", "b"]) .nilValue)
      = [pairX, pairY].map (fun d => Rf_mkPROMISE (velt d 0) (velt d 1))
    ∧ pairlistTags (specAttach (argSlots [pairX, pairY] ["a", "b"]) .nilValue)
      = ["a", "b"].map SEXP.symbol := by
  exact make_call_preserves_names_and_order fnSym [pairX, pairY] [lazyDotsClass]
    ["a", "b"] (Or.inl rfl) (by simp) rfl (by decide) (by decide)

/-! ### Claim C4 -/

/-- C4 (evaluation at the failing inputs): make_call_ does not tolerate
optionally named bindings.  On a lazy_dots whose names attribute is
absent, the unconditional SET_TAG(args, install(CHAR(STRING_ELT(names,
i)))) applies STRING_ELT to R_NilValue and the routine aborts; on a
lazy_dots whose single name entry is the empty string, Rf_install rejects
the zero-length name and the routine aborts.  In neither case is a call
with an untagged slot returned. -/
theorem make_call_faults_on_unnamed :
    inheritsR dotsUnnamed lazyDotsClass = true
    ∧ inheritsR dotsEmptyName lazyDotsClass = true
    ∧ make_call_ fnSym dotsUnnamed
        = .error "STRING_ELT can only be applied to a character vector"
    ∧ make_call_ fnSym dotsEmptyName
        = .error "attempt to use zero-length variable name" :=
  ⟨rfl, rfl, rfl, rfl⟩

/-! ### Claim C8 -/

/-- C8: for a valid fun and a zero-length lazy_dots, make_call_ returns
the call with head fun and an empty argument list; the instrumented run
records no event at all, so the names attribute is not read and no
promise is constructed. -/
theorem make_call_empty_dots (fn : SEXP) (cls : List String)
    (nmattr : Option (List String)) (c : Nat)
    (hfn : TYPEOF fn = SEXPTYPE.SYMSXP ∨ TYPEOF fn = SEXPTYPE.LANGSXP)
    (hcls : lazyDotsClass ∈ cls) :
    make_call_ fn (.vec [] cls nmattr) = .ok (.langCell fn .nilValue)
    ∧ make_call_I fn (.vec [] cls nmattr) c = (.ok (.langCell fn .nilValue), c, [])
    ∧ Ev.readNames ∉ (make_call_I fn (.vec [] cls nmattr) c).2.2
    ∧ ∀ e v, Ev.mkProm e v ∉ (make_call_I fn (.vec [] cls nmattr) c).2.2 := by
  have h1 : ¬(TYPEOF fn ≠ SEXPTYPE.SYMSXP ∧ TYPEOF fn ≠ SEXPTYPE.LANGSXP) := by
    rcases hfn with h | h <;> simp [h]
  have h3 : ¬(inheritsR (SEXP.vec [] cls nmattr) lazyDotsClass = false) := by
    simp [inheritsR, hcls]
  have hI : make_call_I fn (.vec [] cls nmattr) c
      = (.ok (.langCell fn .nilValue), c, []) := by
    rw [make_call_I, if_neg h1, if_neg (by simp [TYPEOF]), if_neg h3]
    rfl
  have hP : make_call_ fn (.vec [] cls nmattr) = .ok (.langCell fn .nilValue) := by
    rw [make_call_, if_neg h1, if_neg (by simp [TYPEOF]), if_neg h3]
    rfl
  refine ⟨hP, hI, ?_, ?_⟩
  · rw [hI]; simp
  · intro e v; rw [hI]; simp

/-- C8 witness: the theorem applied to a concrete symbol and the concrete
empty lazy_dots. -/
theorem make_call_empty_dots_witness :
    make_call_ fnSym dotsEmpty = .ok (.langCell fnSym .nilValue)
    ∧ make_call_I fnSym dotsEmpty 0 = (.ok (.langCell fnSym .nilValue), 0, [])
    ∧ Ev.readNames ∉ (make_call_I fnSym dotsEmpty 0).2.2
    ∧ ∀ e v, Ev.mkProm e v ∉ (make_call_I fnSym dotsEmpty 0).2.2 := by
  exact make_call_empty_dots fnSym [lazyDotsClass] none 0 (Or.inl rfl) (by simp)

/-! ### Equivalence of the instrumented and the plain semantics -/

lemma makeArgsLoopI_fst (dots names : SEXP) :
    ∀ i acc c evs,
      (makeArgsLoopI dots names i acc c evs).1 = makeArgsLoop dots names i acc := by
  intro i
  induction i with
  | zero => intro acc c evs; rfl
  | succ i ih =>
      intro acc c evs
      rw [makeArgsLoopI, makeArgsLoop]
      cases hvd : VECTOR_ELT dots i with
      | error m => rfl
      | ok dot =>
          dsimp only
          simp only [lazy_to_promise]
          cases h0 : VECTOR_ELT dot 0 with
          | error m => rfl
          | ok e =>
              dsimp only
              cases h1 : VECTOR_ELT dot 1 with
              | error m => rfl
              | ok v =>
                  dsimp only
                  cases hs : STRING_ELT names i with
                  | error m => rfl
                  | ok nm =>
                      dsimp only
                      cases hins : Rf_install nm with
                      | error m => rfl
                      | ok tagv =>
                          dsimp only
                          exact ih _ _ _

lemma make_call_I_fst (fn dots : SEXP) (c : Nat) :
    (make_call_I fn dots c).1 = make_call_ fn dots := by
  rw [make_call_I, make_call_]
  by_cases h1 : TYPEOF fn ≠ SEXPTYPE.SYMSXP ∧ TYPEOF fn ≠ SEXPTYPE.LANGSXP
  · rw [if_pos h1, if_pos h1]
  · rw [if_neg h1, if_neg h1]
    by_cases h2 : TYPEOF dots ≠ SEXPTYPE.VECSXP
    · rw [if_pos h2, if_pos h2]
    · rw [if_neg h2, if_neg h2]
      by_cases h3 : inheritsR dots lazyDotsClass = false
      · rw [if_pos h3, if_pos h3]
      · rw [if_neg h3, if_neg h3]
        by_cases h4 : Rf_length dots = 0
        · simp only [if_pos h4]
        · simp only [if_neg h4]
          have hfst := makeArgsLoopI_fst dots (GET_NAMES dots) (Rf_length dots)
            SEXP.nilValue c [Ev.readNames]
          rcases hL : makeArgsLoopI dots (GET_NAMES dots) (Rf_length dots)
            SEXP.nilValue c [Ev.readNames] with ⟨r, c2, evs⟩
          rw [hL] at hfst
          rw [← hfst]
          cases r with
          | error m => rfl
          | ok args => rfl

/-! ### Claim C9 -/

/-- C9: make_call_ is deterministic.  The result of the instrumented run
is the pure function make_call_ of fun and dots alone: it does not depend
on the allocation state (two runs from any two allocator counters return
the same call), and structurally equal inputs trivially give structurally
equal outputs since make_call_ is a function of its two arguments. -/
theorem make_call_deterministic (fn dots : SEXP) (c1 c2 : Nat) :
    (make_call_I fn dots c1).1 = make_call_ fn dots
    ∧ (make_call_I fn dots c1).1 = (make_call_I fn dots c2).1 := by
  refine ⟨make_call_I_fst fn dots c1, ?_⟩
  rw [make_call_I_fst fn dots c1, make_call_I_fst fn dots c2]

/-! ### Claim C7: mutation targets are fresh cells -/

/-- The frame invariant on an event trace: every SET_TAG so far has hit a
cell allocated during the run, with an id at or above the initial counter
c0 (pre-existing objects, in particular fun and dots and their contents,
live below c0). -/
def TagsFresh (c0 : Nat) (evs : List Ev) : Prop :=
  ∀ id t, Ev.setTagEv id t ∈ evs → Ev.allocCons id ∈ evs ∧ c0 ≤ id

lemma tagsFresh_extend (c0 : Nat) (evs new : List Ev)
    (hinv : TagsFresh c0 evs)
    (hnew : ∀ id t, Ev.setTagEv id t ∈ new → Ev.allocCons id ∈ evs ++ new ∧ c0 ≤ id) :
    TagsFresh c0 (evs ++ new) := by
  intro id t hm
  rcases List.mem_append.mp hm with h | h
  · obtain ⟨ha, hid⟩ := hinv id t h
    exact ⟨List.mem_append.mpr (Or.inl ha), hid⟩
  · exact hnew id t h

lemma makeArgsLoopI_tagsFresh (dots names : SEXP) (c0 : Nat) :
    ∀ i acc c evs, c0 ≤ c → TagsFresh c0 evs →
      TagsFresh c0 (makeArgsLoopI dots names i acc c evs).2.2 := by
  intro i
  induction i with
  | zero => intro acc c evs _ hinv; exact hinv
  | succ i ih =>
      intro acc c evs hc hinv
      have hv : TagsFresh c0 (evs ++ [Ev.visit i]) :=
        tagsFresh_extend c0 evs _ hinv (by intro id t h; simp at h)
      rw [makeArgsLoopI]
      cases hvd : VECTOR_ELT dots i with
      | error m => exact hv
      | ok dot =>
          dsimp only
          cases h0 : VECTOR_ELT dot 0 with
          | error m => exact hv
          | ok e =>
              dsimp only
              cases h1 : VECTOR_ELT dot 1 with
              | error m => exact hv
              | ok v =>
                  dsimp only
                  have hpa : TagsFresh c0
                      (evs ++ [Ev.visit i] ++ [Ev.mkProm e v, Ev.allocCons c]) :=
                    tagsFresh_extend c0 _ _ hv (by intro id t h; simp at h)
                  cases hs : STRING_ELT names i with
                  | error m => exact hpa
                  | ok nm =>
                      dsimp only
                      cases hins : Rf_install nm with
                      | error m => exact hpa
                      | ok tagv =>
                          dsimp only
                          refine ih _ (c + 1) _ (Nat.le_succ_of_le hc) ?_
                          refine tagsFresh_extend c0 _ _ hpa ?_
                          intro id t h
                          simp only [List.mem_singleton] at h
                          cases h
                          exact ⟨by simp, hc⟩

/-- C7: make_call_ leaves its inputs unchanged.  The only mutation the
routine performs is SET_TAG, and on every run (success or error, any
input) every SET_TAG event in the trace writes into a cons cell that was
allocated during the same run, with an id at or above the initial
allocation counter; fun, dots, the elements of dots and its names
attribute all predate the run, so none of them is written to.  The
embedding passes fun and dots by value everywhere else, and the routine
holds no other state, so no persistent state is mutated. -/
theorem make_call_mutates_only_fresh_cells (fn dots : SEXP) (c : Nat)
    (id : Nat) (t : SEXP)
    (hmem : Ev.setTagEv id t ∈ (make_call_I fn dots c).2.2) :
    Ev.allocCons id ∈ (make_call_I fn dots c).2.2 ∧ c ≤ id := by
  have hfresh : TagsFresh c (make_call_I fn dots c).2.2 := ?_
  · exact hfresh id t hmem
  rw [make_call_I]
  by_cases h1 : TYPEOF fn ≠ SEXPTYPE.SYMSXP ∧ TYPEOF fn ≠ SEXPTYPE.LANGSXP
  · rw [if_pos h1]; intro id t h; simp at h
  · rw [if_neg h1]
    by_cases h2 : TYPEOF dots ≠ SEXPTYPE.VECSXP
    · rw [if_pos h2]; intro id t h; simp at h
    · rw [if_neg h2]
      by_cases h3 : inheritsR dots lazyDotsClass = false
      · rw [if_pos h3]; intro id t h; simp at h
      · rw [if_neg h3]
        by_cases h4 : Rf_length dots = 0
        · simp only [if_pos h4]; intro id t h; simp at h
        · simp only [if_neg h4]
          have hL : TagsFresh c
              (makeArgsLoopI dots (GET_NAMES dots) (Rf_length dots)
                SEXP.nilValue c [Ev.readNames]).2.2 := by
            refine makeArgsLoopI_tagsFresh dots (GET_NAMES dots) c _ _ c _
              (Nat.le_refl c) ?_
            intro id t h; simp at h
          rcases hE : makeArgsLoopI dots (GET_NAMES dots) (Rf_length dots)
            SEXP.nilValue c [Ev.readNames] with ⟨r, c2, evs⟩
          rw [hE] at hL
          cases r with
          | error m => exact hL
          | ok args => exact hL

/-- C7 witness: on a concrete named run, the single SET_TAG event hits
cell 0, which is allocated during the run and not below the initial
counter. -/
theorem make_call_mutates_only_fresh_cells_witness :
    Ev.setTagEv 0 (.symbol "b") ∈ (make_call_I fnSym dotsNamed 0).2.2
    ∧ (Ev.allocCons 0 ∈ (make_call_I fnSym dotsNamed 0).2.2 ∧ 0 ≤ 0) := by
  have hm : Ev.setTagEv 0 (.symbol "b") ∈ (make_call_I fnSym dotsNamed 0).2.2 := by
    show Ev.setTagEv 0 (.symbol "b") ∈
      [Ev.readNames, Ev.visit 1, Ev.mkProm (.symbol "y") (.envRec 1),
       Ev.allocCons 0, Ev.setTagEv 0 (.symbol "b"), Ev.visit 0,
       Ev.mkProm (.symbol "x") (.envRec 0), Ev.allocCons 1,
       Ev.setTagEv 1 (.symbol "a")]
    simp
  exact ⟨hm, make_call_mutates_only_fresh_cells fnSym dotsNamed 0 0 (.symbol "b") hm⟩

/-! ### Claim C5: one pass, indices n-1 down to 0 -/

lemma visitsOf_append (a b : List Ev) :
    visitsOf (a ++ b) = visitsOf a ++ visitsOf b :=
  List.filterMap_append a b _

lemma visitsOf_visit (i : Nat) : visitsOf [Ev.visit i] = [i] := rfl

lemma visitsOf_promAlloc (e v : SEXP) (c : Nat) :
    visitsOf [Ev.mkProm e v, Ev.allocCons c] = [] := rfl

lemma visitsOf_tag (c : Nat) (t : SEXP) : visitsOf [Ev.setTagEv c t] = [] := rfl

lemma makeArgsLoopI_visits (elts : List SEXP) (cls ns : List String)
    (hpair : ∀ d ∈ elts, isLazyPair d = true) (hnm : ∀ nm ∈ ns, nm ≠ "") :
    ∀ i, i ≤ elts.length → i ≤ ns.length → ∀ acc c evs,
      visitsOf (makeArgsLoopI (.vec elts cls (some ns)) (.strVec ns) i acc c evs).2.2
        = visitsOf evs ++ (List.range i).reverse := by
  intro i
  induction i with
  | zero => intro _ _ acc c evs; simp [makeArgsLoopI]
  | succ i ih =>
      intro h1 h2 acc c evs
      have hi1 : i < elts.length := Nat.lt_of_succ_le h1
      have hi2 : i < ns.length := Nat.lt_of_succ_le h2
      have hp : isLazyPair elts[i] = true := hpair _ (List.getElem_mem hi1)
      have hn : ns[i] ≠ "" := hnm _ (List.getElem_mem hi2)
      obtain ⟨x, y, rest, a, b, hd⟩ :
          ∃ x y rest a b, elts[i] = SEXP.vec (x :: y :: rest) a b := by
        rcases he : elts[i] with _ | _ | _ | _ | _ | _ | _ | ⟨l, a, b⟩ | _ <;>
          rw [he] at hp <;> simp [isLazyPair] at hp
        rcases l with _ | ⟨x, _ | ⟨y, rest⟩⟩
        · simp at hp
        · simp at hp
        · exact ⟨x, y, rest, a, b, rfl⟩
      have hvelt : VECTOR_ELT (SEXP.vec elts cls (some ns)) i
          = .ok (SEXP.vec (x :: y :: rest) a b) := by
        simp [VECTOR_ELT, List.getElem?_eq_getElem hi1, hd]
      have hstr : STRING_ELT (SEXP.strVec ns) i = .ok ns[i] := by
        simp [STRING_ELT, List.getElem?_eq_getElem hi2]
      have hinst : Rf_install ns[i] = .ok (.symbol ns[i]) := by
        rw [Rf_install, if_neg hn]
      rw [makeArgsLoopI]
      simp only [hvelt, hstr, hinst]
      have h0 : VECTOR_ELT (SEXP.vec (x :: y :: rest) a b) 0 = .ok x := rfl
      have h1v : VECTOR_ELT (SEXP.vec (x :: y :: rest) a b) 1 = .ok y := rfl
      simp only [h0, h1v]
      rw [ih (Nat.le_of_lt hi1) (Nat.le_of_lt hi2)]
      rw [visitsOf_append, visitsOf_append, visitsOf_append,
        visitsOf_visit, visitsOf_promAlloc, visitsOf_tag]
      simp [List.range_succ]

/-- C5: for inputs that pass validation (and are well formed, so that the
run completes), make_call_ terminates after exactly one pass over dots:
the visit trace of the construction loop is exactly the indices n-1 down
to 0, so each of the n elements is visited exactly once and none twice.
Termination itself is structural: the loop is a recursion on the index
and every Lean function is total. -/
theorem make_call_single_pass (fn : SEXP) (elts : List SEXP)
    (cls ns : List String) (c : Nat)
    (hfn : TYPEOF fn = SEXPTYPE.SYMSXP ∨ TYPEOF fn = SEXPTYPE.LANGSXP)
    (hcls : lazyDotsClass ∈ cls)
    (hlen : elts.length = ns.length)
    (hpair : ∀ d ∈ elts, isLazyPair d = true)
    (hnm : ∀ nm ∈ ns, nm ≠ "") :
    visitsOf (make_call_I fn (.vec elts cls (some ns)) c).2.2
      = (List.range elts.length).reverse
    ∧ (∀ j, j < elts.length →
        j ∈ visitsOf (make_call_I fn (.vec elts cls (some ns)) c).2.2)
    ∧ (visitsOf (make_call_I fn (.vec elts cls (some ns)) c).2.2).Nodup := by
  have hmain : visitsOf (make_call_I fn (.vec elts cls (some ns)) c).2.2
      = (List.range elts.length).reverse := by
    rw [make_call_I]
    rw [if_neg (by rcases hfn with h | h <;> simp [h])]
    rw [if_neg (by simp [TYPEOF])]
    rw [if_neg (by simp [inheritsR, hcls])]
    by_cases hz : elts.length = 0
    · have he : elts = [] := List.length_eq_zero.mp hz
      subst he
      rfl
    · simp only [Rf_length, hz, if_false, ite_false]
      have hv := makeArgsLoopI_visits elts cls ns hpair hnm elts.length
        (Nat.le_refl _) (le_of_eq hlen) SEXP.nilValue c [Ev.readNames]
      rcases hL : makeArgsLoopI (SEXP.vec elts cls (some ns))
          (GET_NAMES (SEXP.vec elts cls (some ns))) elts.length
          SEXP.nilValue c [Ev.readNames] with ⟨r, c2, evs⟩
      rw [show GET_NAMES (SEXP.vec elts cls (some ns)) = SEXP.strVec ns from rfl]
        at hL
      rw [hL] at hv
      cases r with
      | error m => simpa using hv
      | ok args => simpa using hv
  refine ⟨hmain, ?_, ?_⟩
  · intro j hj
    rw [hmain]
    simpa using hj
  · rw [hmain]
    exact List.nodup_reverse.mpr (List.nodup_range elts.length)

/-- C5 witness: the theorem applied to a concrete two-element named
lazy_dots; the loop visits index 1 then index 0, each exactly once. -/
theorem make_call_single_pass_witness :
    visitsOf (make_call_I fnSym dotsNamed 0).2.2 = (List.range 2).reverse
    ∧ (∀ j, j < 2 → j ∈ visitsOf (make_call_I fnSym dotsNamed 0).2.2)
    ∧ (visitsOf (make_call_I fnSym dotsNamed 0).2.2).Nodup := by
  exact make_call_single_pass fnSym [pairX, pairY] [lazyDotsClass] ["a", "b"] 0
    (Or.inl rfl) (by simp) rfl (by decide) (by decide)

/-! ### Claim C3: when exactly make_call_ errors -/

/-- The three validation checks of make_call_ lines 14-22, as one Bool:
fun is a symbol or a call, dots is a generic list, dots inherits from
lazy_dots. -/
def passesChecks (fn dots : SEXP) : Bool :=
  (decide (TYPEOF fn = SEXPTYPE.SYMSXP) || decide (TYPEOF fn = SEXPTYPE.LANGSXP))
    && decide (TYPEOF dots = SEXPTYPE.VECSXP)
    && inheritsR dots lazyDotsClass

/-- The conditions under which iteration j of the construction loop
faults: element j is not a generic vector with at least (expression,
environment), or the names attribute is absent, or it has no entry at j,
or the entry at j is the empty string. -/
def badAt (elts : List SEXP) (nmattr : Option (List String)) (j : Nat) : Bool :=
  !isLazyPair (elts.getD j .nilValue)
    || match nmattr with
       | none => true
       | some ns => !decide (j < ns.length) || decide (ns.getD j "" = "")

lemma lazy_to_promise_isErr (x : SEXP) : isErr (lazy_to_promise x) = !isLazyPair x := by
  cases x <;> try rfl
  case vec l cls nmattr =>
    rcases l with _ | ⟨a, _ | ⟨b, rest⟩⟩ <;>
      simp [lazy_to_promise, VECTOR_ELT, isErr, isLazyPair]

lemma makeArgsLoop_isErr (elts : List SEXP) (cls : List String)
    (nmattr : Option (List String)) :
    ∀ i, i ≤ elts.length → ∀ acc,
      (isErr (makeArgsLoop (.vec elts cls nmattr)
        (GET_NAMES (.vec elts cls nmattr)) i acc) = true
      ↔ ∃ j, j < i ∧ badAt elts nmattr j = true) := by
  intro i
  induction i with
  | zero =>
      intro _ acc
      simp [makeArgsLoop, isErr]
  | succ i ih =>
      intro h1 acc
      have hi1 : i < elts.length := Nat.lt_of_succ_le h1
      have hvelt : VECTOR_ELT (SEXP.vec elts cls nmattr) i = .ok elts[i] := by
        simp [VECTOR_ELT, List.getElem?_eq_getElem hi1]
      have hgd : elts.getD i SEXP.nilValue = elts[i] := by
        simp [List.getElem?_eq_getElem hi1]
      rw [makeArgsLoop]
      simp only [hvelt]
      by_cases hlp : isLazyPair elts[i] = true
      · have hlz := lazy_to_promise_isErr elts[i]
        rw [hlp] at hlz
        cases hL : lazy_to_promise elts[i] with
        | error m => rw [hL] at hlz; simp [isErr] at hlz
        | ok pr =>
            dsimp only
            cases nmattr with
            | none =>
                constructor
                · intro _
                  exact ⟨i, Nat.lt_succ_self i, by simp [badAt]⟩
                · intro _; rfl
            | some ns =>
                by_cases hjb : i < ns.length
                · have hstr : STRING_ELT (GET_NAMES (SEXP.vec elts cls (some ns))) i
                      = .ok ns[i] := by
                    simp [GET_NAMES, STRING_ELT, List.getElem?_eq_getElem hjb]
                  rw [hstr]
                  dsimp only
                  have hgdn : ns.getD i "" = ns[i] := by
                    simp [List.getElem?_eq_getElem hjb]
                  by_cases hemp : ns[i] = ""
                  · rw [Rf_install, if_pos hemp]
                    constructor
                    · intro _
                      refine ⟨i, Nat.lt_succ_self i, ?_⟩
                      simp [badAt, List.getElem?_eq_getElem hjb, hemp]
                    · intro _; rfl
                  · rw [Rf_install, if_neg hemp]
                    dsimp only
                    rw [ih (Nat.le_of_lt hi1)]
                    have hbadi : badAt elts (some ns) i = false := by
                      simp [badAt, List.getElem?_eq_getElem hi1,
                        List.getElem?_eq_getElem hjb, hlp, hjb, hemp]
                    constructor
                    · rintro ⟨j, hj, hb⟩
                      exact ⟨j, Nat.lt_succ_of_lt hj, hb⟩
                    · rintro ⟨j, hj, hb⟩
                      rcases Nat.lt_succ_iff_lt_or_eq.mp hj with h | h
                      · exact ⟨j, h, hb⟩
                      · subst h; rw [hbadi] at hb; cases hb
                · have hstr : STRING_ELT (GET_NAMES (SEXP.vec elts cls (some ns))) i
                      = .error "STRING_ELT subscript out of bounds" := by
                    have : ns[i]? = none := List.getElem?_eq_none (Nat.le_of_not_lt hjb)
                    simp [GET_NAMES, STRING_ELT, this]
                  rw [hstr]
                  constructor
                  · intro _
                    refine ⟨i, Nat.lt_succ_self i, ?_⟩
                    simp [badAt, hjb]
                  · intro _; rfl
      · have hlp2 : isLazyPair elts[i] = false := by simpa using hlp
        have hlz := lazy_to_promise_isErr elts[i]
        rw [hlp2] at hlz
        cases hL : lazy_to_promise elts[i] with
        | error m =>
            dsimp only
            constructor
            · intro _
              refine ⟨i, Nat.lt_succ_self i, ?_⟩
              simp [badAt, List.getElem?_eq_getElem hi1, hlp2]
            · intro _; rfl
        | ok pr => rw [hL] at hlz; simp [isErr] at hlz

lemma make_call_isErr_of_not_vec (fn dots : SEXP)
    (h : TYPEOF dots ≠ SEXPTYPE.VECSXP) : isErr (make_call_ fn dots) = true := by
  rw [make_call_]
  by_cases hfn : TYPEOF fn ≠ SEXPTYPE.SYMSXP ∧ TYPEOF fn ≠ SEXPTYPE.LANGSXP
  · rw [if_pos hfn]; rfl
  · rw [if_neg hfn, if_pos h]; rfl

lemma make_call_checksFail (fn dots : SEXP)
    (h : passesChecks fn dots = false) :
    isErr (make_call_ fn dots) = true ∧ ∀ c, (make_call_I fn dots c).2.2 = [] := by
  by_cases hfn : TYPEOF fn ≠ SEXPTYPE.SYMSXP ∧ TYPEOF fn ≠ SEXPTYPE.LANGSXP
  · exact ⟨by rw [make_call_, if_pos hfn]; rfl,
      fun c => by rw [make_call_I, if_pos hfn]⟩
  · by_cases hdt : TYPEOF dots ≠ SEXPTYPE.VECSXP
    · exact ⟨by rw [make_call_, if_neg hfn, if_pos hdt]; rfl,
        fun c => by rw [make_call_I, if_neg hfn, if_pos hdt]⟩
    · have hA : (decide (TYPEOF fn = SEXPTYPE.SYMSXP)
          || decide (TYPEOF fn = SEXPTYPE.LANGSXP)) = true := by
        rcases not_and_or.mp hfn with h' | h' <;>
          simp [Decidable.not_not.mp h']
      have hB : decide (TYPEOF dots = SEXPTYPE.VECSXP) = true := by
        simp [Decidable.not_not.mp hdt]
      have h3 : inheritsR dots lazyDotsClass = false := by
        simpa [passesChecks, hA, hB] using h
      exact ⟨by rw [make_call_, if_neg hfn, if_neg hdt, if_pos h3]; rfl,
        fun c => by rw [make_call_I, if_neg hfn, if_neg hdt, if_pos h3]⟩

/-- C3 counterexample to the claim as stated: an input on which all three
validation conditions are satisfied (fun is a symbol, dots is a generic
list, dots inherits from lazy_dots) yet make_call_ raises an error — the
construction loop itself can fault, here because the names attribute is
absent.  The "only if" direction of the claimed equivalence is false. -/
theorem make_call_error_beyond_checks :
    passesChecks fnSym dotsUnnamed = true
    ∧ isErr (make_call_ fnSym dotsUnnamed) = true :=
  ⟨rfl, rfl⟩

/-- C3 (amended): make_call_ raises an error if and only if one of the
three validation conditions holds (fun neither symbol nor call, dots not
a generic list, dots not of class lazy_dots), or dots is nonempty and
some iteration of the construction loop faults: its element is not a
generic vector with the two (expression, environment) slots, or the names
attribute is absent or has no entry there, or the name entry is the empty
string.  Each failing validation check aborts immediately: the
instrumented run records no event at all, so no promise and no call node
is constructed before the abort (and the error value carries no partial
result). -/
theorem make_call_error_characterization :
    (∀ fn dots, isErr (make_call_ fn dots) = true
      ↔ (passesChecks fn dots = false
        ∨ ∃ elts cls nmattr, dots = SEXP.vec elts cls nmattr
            ∧ 0 < elts.length ∧ ∃ j, j < elts.length ∧ badAt elts nmattr j = true))
    ∧ (∀ fn dots c, passesChecks fn dots = false →
        isErr (make_call_ fn dots) = true ∧ (make_call_I fn dots c).2.2 = []) := by
  constructor
  · intro fn dots
    cases dots
    case vec elts cls nmattr =>
      by_cases hfn : TYPEOF fn ≠ SEXPTYPE.SYMSXP ∧ TYPEOF fn ≠ SEXPTYPE.LANGSXP
      · constructor
        · intro _
          exact Or.inl (by simp [passesChecks, hfn.1, hfn.2])
        · intro _
          rw [make_call_, if_pos hfn]
          rfl
      · by_cases hinh : inheritsR (SEXP.vec elts cls nmattr) lazyDotsClass = false
        · constructor
          · intro _
            refine Or.inl ?_
            simp [passesChecks, hinh]
          · intro _
            rw [make_call_, if_neg hfn, if_neg (by simp [TYPEOF]), if_pos hinh]
            rfl
        · have hpass : passesChecks fn (SEXP.vec elts cls nmattr) = true := by
            have hA : (decide (TYPEOF fn = SEXPTYPE.SYMSXP)
                || decide (TYPEOF fn = SEXPTYPE.LANGSXP)) = true := by
              rcases not_and_or.mp hfn with h' | h' <;>
                simp [Decidable.not_not.mp h']
            have hB : decide (TYPEOF (SEXP.vec elts cls nmattr)
                = SEXPTYPE.VECSXP) = true := by simp [TYPEOF]
            have hC : inheritsR (SEXP.vec elts cls nmattr) lazyDotsClass
                = true := by
              revert hinh
              cases inheritsR (SEXP.vec elts cls nmattr) lazyDotsClass <;> simp
            rw [passesChecks, hA, hB, hC]
            rfl
          rw [make_call_, if_neg hfn, if_neg (by simp [TYPEOF]), if_neg hinh]
          by_cases hz : elts.length = 0
          · simp only [Rf_length, if_pos hz]
            constructor
            · intro h'
              simp [isErr] at h'
            · rintro (h' | ⟨elts', cls', nm', heq, hpos, _⟩)
              · rw [hpass] at h'; cases h'
              · injection heq with h1 h2 h3
                subst h1
                omega
          · simp only [Rf_length, hz, if_false, ite_false]
            have hiff := makeArgsLoop_isErr elts cls nmattr elts.length
              (Nat.le_refl _) SEXP.nilValue
            constructor
            · intro h'
              have herr : isErr (makeArgsLoop (SEXP.vec elts cls nmattr)
                  (GET_NAMES (SEXP.vec elts cls nmattr)) elts.length
                  SEXP.nilValue) = true := by
                cases hL : makeArgsLoop (SEXP.vec elts cls nmattr)
                    (GET_NAMES (SEXP.vec elts cls nmattr)) elts.length
                    SEXP.nilValue with
                | error m => rfl
                | ok args => rw [hL] at h'; simp [isErr] at h'
              obtain ⟨j, hj, hb⟩ := hiff.mp herr
              exact Or.inr ⟨elts, cls, nmattr, rfl, Nat.pos_of_ne_zero hz, j, hj, hb⟩
            · rintro (h' | ⟨elts', cls', nm', heq, hpos, j, hj, hb⟩)
              · rw [hpass] at h'; cases h'
              · injection heq with h1 h2 h3
                subst h1; subst h2; subst h3
                have herr := hiff.mpr ⟨j, hj, hb⟩
                cases hL : makeArgsLoop (SEXP.vec elts cls nmattr)
                    (GET_NAMES (SEXP.vec elts cls nmattr)) elts.length
                    SEXP.nilValue with
                | error m => rfl
                | ok args => rw [hL] at herr; simp [isErr] at herr
    all_goals
      exact ⟨fun _ => Or.inl (by simp [passesChecks, TYPEOF]),
        fun _ => make_call_isErr_of_not_vec fn _ (by simp [TYPEOF])⟩
  · intro fn dots c h
    obtain ⟨h1, h2⟩ := make_call_checksFail fn dots h
    exact ⟨h1, h2 c⟩

/-- C3 witness: the amended theorem applied concretely.  A non-symbol,
non-call fun fails the first check, the routine errors, and the
instrumented trace is empty: nothing was constructed before the abort;
and on the well-formed named input the loop faults nowhere so make_call_
does not error. -/
theorem make_call_error_characterization_witness :
    passesChecks (SEXP.intVec []) dotsNamed = false
    ∧ isErr (make_call_ (SEXP.intVec []) dotsNamed) = true
    ∧ (make_call_I (SEXP.intVec []) dotsNamed 0).2.2 = []
    ∧ isErr (make_call_ fnSym dotsNamed) = false := by
  have h := make_call_error_characterization.2 (SEXP.intVec []) dotsNamed 0 rfl
  exact ⟨rfl, h.1, h.2, rfl⟩

/-! ### Claim C6: promise forcing by the host interpreter -/

/-- Modelled from the spec: the runtime state of a deferred-evaluation
binding created by Rf_mkPROMISE, whose definition lives in the host
interpreter and not in src (src only declares `SEXP Rf_mkPROMISE(SEXP,
SEXP)`).  A promise pairs an expression with the environment it should be
evaluated in, together with the cached value once it has been forced. -/
structure PromiseState where
  pexpr : SEXP
  penv : SEXP
  cached : Option SEXP

/-- The unevaluated promise node viewed as a runtime promise state (no
cached value yet). -/
def promiseStateOf : SEXP → Option PromiseState
  | .promiseV e v => some ⟨e, v, none⟩
  | _ => none

/-- Modelled from the spec: one access to a promise under a host
evaluator evalF.  A promise is "evaluated at most once, on first access,
with its result cached thereafter": an access to an unforced promise
evaluates the expression in the recorded environment, caches the value
and reports one evaluation event (expression, environment); an access to
a forced promise returns the cache and evaluates nothing. -/
def forceP (evalF : SEXP → SEXP → SEXP) (p : PromiseState) :
    SEXP × PromiseState × List (SEXP × SEXP) :=
  match p.cached with
  | some v => (v, p, [])
  | none =>
      (evalF p.pexpr p.penv, ⟨p.pexpr, p.penv, some (evalF p.pexpr p.penv)⟩,
        [(p.pexpr, p.penv)])

/-- Modelled from the spec: k successive accesses to a promise; returns
the k values observed, the final promise state, and the evaluation events
in order. -/
def forceSeq (evalF : SEXP → SEXP → SEXP) (p : PromiseState) :
    Nat → List SEXP × PromiseState × List (SEXP × SEXP)
  | 0 => ([], p, [])
  | k + 1 =>
      let r1 := forceP evalF p
      let rr := forceSeq evalF r1.2.1 k
      (r1.1 :: rr.1, rr.2.1, r1.2.2 ++ rr.2.2)

lemma forceSeq_cached (evalF : SEXP → SEXP → SEXP) (e v : SEXP) (v0 : SEXP) :
    ∀ k, forceSeq evalF ⟨e, v, some v0⟩ k
      = (List.replicate k v0, ⟨e, v, some v0⟩, []) := by
  intro k
  induction k with
  | zero => rfl
  | succ k ih => simp [forceSeq, forceP, ih, List.replicate]

lemma forceSeq_fresh (evalF : SEXP → SEXP → SEXP) (e v : SEXP) (k : Nat) :
    (forceSeq evalF ⟨e, v, none⟩ k).1 = List.replicate k (evalF e v)
    ∧ (forceSeq evalF ⟨e, v, none⟩ k).2.2
      = (if k = 0 then [] else [(e, v)]) := by
  cases k with
  | zero => exact ⟨rfl, rfl⟩
  | succ k =>
      constructor
      · simp [forceSeq, forceP, forceSeq_cached, List.replicate]
      · simp [forceSeq, forceP, forceSeq_cached]

lemma lazy_to_promise_ok_shape (d pr : SEXP)
    (h : lazy_to_promise d = .ok pr) :
    pr = .promiseV (velt d 0) (velt d 1) := by
  cases d <;> simp [lazy_to_promise, VECTOR_ELT] at h
  case vec l cls nmattr =>
    rcases l with _ | ⟨a, _ | ⟨b, rest⟩⟩ <;>
      simp [lazy_to_promise, VECTOR_ELT, List.get?] at h
    simp [velt, ← h, Rf_mkPROMISE]

/-- C6 (spec-modelled host semantics): every promise built by
lazy_to_promise from a dots element records that element's expression and
environment; under the modelled forcing discipline of the host
interpreter, a sequence of k accesses evaluates the expression at most
once — exactly on the first access, in the recorded environment (the
original lexical context), never on later accesses — and every access
returns the one cached result. -/
theorem promise_evaluated_once_in_recorded_env
    (evalF : SEXP → SEXP → SEXP) (d pr : SEXP) (st : PromiseState) (k : Nat)
    (hd : lazy_to_promise d = .ok pr)
    (hst : promiseStateOf pr = some st) :
    st.pexpr = velt d 0 ∧ st.penv = velt d 1
    ∧ (forceSeq evalF st k).2.2 = (if k = 0 then [] else [(st.pexpr, st.penv)])
    ∧ (forceSeq evalF st k).1 = List.replicate k (evalF st.pexpr st.penv) := by
  have hpr := lazy_to_promise_ok_shape d pr hd
  subst hpr
  have hst2 : st = ⟨velt d 0, velt d 1, none⟩ := by
    simpa [promiseStateOf] using hst.symm
  subst hst2
  obtain ⟨h1, h2⟩ := forceSeq_fresh evalF (velt d 0) (velt d 1) k
  exact ⟨rfl, rfl, h2, h1⟩

/-- C6 witness: the theorem applied to a concrete evaluator, the concrete
dots element (x, environment 0) and three accesses: one evaluation event,
on the first access, in environment 0, and all three accesses observe the
same value. -/
theorem promise_evaluated_once_witness :
    (forceSeq (fun _ _ => SEXP.nilValue)
        ⟨.symbol "x", .envRec 0, none⟩ 3).2.2 = [(.symbol "x", .envRec 0)]
    ∧ (forceSeq (fun _ _ => SEXP.nilValue)
        ⟨.symbol "x", .envRec 0, none⟩ 3).1
      = List.replicate 3 SEXP.nilValue := by
  have h := promise_evaluated_once_in_recorded_env (fun _ _ => SEXP.nilValue)
    pairX (.promiseV (.symbol "x") (.envRec 0))
    ⟨.symbol "x", .envRec 0, none⟩ 3 rfl rfl
  exact ⟨by simpa using h.2.2.1, by simpa using h.2.2.2⟩

end RMakeCall
